import Mathlib

/-!
Verification of the Elixir model compiler (source tree of folders, Lua
scripts and pre-built ROBLOX models → one importable XML model file).

Shallow embedding of the Python sources `elixir/rbxmx.py`,
`elixir/processors.py` and `elixir/compilers.py`.  Strings are `String`,
`xml.etree.ElementTree.Element` values are the inductive `Element` below,
Python `None`-able values are `Option`, and the `AttributeError` raised by
dereferencing `None` is an `Except.error`.
-/

namespace Elixir

/-- Python's regex class `\s`, restricted to the ASCII whitespace characters
(space, tab, newline, carriage return, vertical tab, form feed). -/
def isPySpace (c : Char) : Bool :=
  c == ' ' || c == '\t' || c == '\n' || c == '\r' || c == '\x0b' || c == '\x0c'

/-- Python's regex class `\w` (ASCII part): letters, digits and underscore. -/
def isWordChar (c : Char) : Bool :=
  c.isAlpha || c.isDigit || c == '_'

/-- The matcher `_is_lua_comment` of rbxmx.py: `re.match(r"^--\s+", line)`.
The line must start with two dashes followed by at least one whitespace
character (the space requirement deliberately rejects block comments). -/
def isLuaCommentLine (line : List Char) : Bool :=
  match line with
  | '-' :: '-' :: c :: _ => isPySpace c
  | _ => false

/-- The function `_convert_bool` of rbxmx.py: `str(b).lower()`. -/
def convert_bool (b : Bool) : String := if b then "true" else "false"

/-- A Python value that the code stores as the text of a property:
`None`, a string, or a bool. -/
inductive PyVal where
  | none
  | str (s : String)
  | bool (b : Bool)

/-- The function `_sanitize` of rbxmx.py: bools are converted with
`_convert_bool`, everything else is stored as-is (`None` stays `None`). -/
def sanitize : PyVal → Option String
  | .none => Option.none
  | .str s => some s
  | .bool b => some (convert_bool b)

/-- Tail of the `is_module` pattern after the literal `return`, namely
`\s+.*(\s+)?$`, matched against the suffix `u` of the content.  The
greedy/backtracking search succeeds exactly when `u` begins with a whitespace
character and, after dropping the maximal leading whitespace run and then the
maximal newline-free run, only whitespace remains (so that the zero-width `$`
assertion holds at the end of the string or just before a final newline).
The lemma `matchTail_iff_matchTailSplit` below checks this against the
declarative reading of the pattern. -/
def matchTail (u : List Char) : Bool :=
  match u with
  | [] => false
  | c :: _ =>
    isPySpace c &&
      ((u.dropWhile isPySpace).dropWhile (fun d => !(d == '\n'))).all isPySpace

/-- Search loop of `is_module` (rbxmx.py): `re.search` tries every start
position from left to right, looking for the literal `return` followed by a
match of the rest of the pattern. -/
def searchReturn : List Char → Bool
  | [] => false
  | c :: rest =>
    ("return".data.isPrefixOf (c :: rest) && matchTail ((c :: rest).drop 6))
      || searchReturn rest

/-- The function `is_module` of rbxmx.py: truthiness of
`re.search(r"return\s+.*(\s+)?$", content)`. -/
def is_module (content : String) : Bool := searchReturn content.data

/-- The function `get_script_type` of rbxmx.py. -/
def get_script_type (content : String) : String :=
  if is_module content then "ModuleScript" else "Script"

/-- Declarative split form of the regex tail `\s+.*(\s+)?$` against `u`:
at least one whitespace character, then newline-free text, then optional
whitespace, ending at the end of the string or just before a final newline. -/
def matchTailSplit (u : List Char) : Prop :=
  ∃ w d w2 rest, u = w ++ d ++ w2 ++ rest
    ∧ w ≠ [] ∧ (∀ c ∈ w, isPySpace c) ∧ (∀ c ∈ d, c ≠ '\n')
    ∧ (∀ c ∈ w2, isPySpace c) ∧ (rest = [] ∨ rest = ['\n'])

/-- Declarative reading of `re.search(r"return\s+.*(\s+)?$", content)`: some
decomposition of the text has the literal `return` (at any position, with no
word-boundary requirement), then a match of the tail of the pattern. -/
def regexReturnMatch (s : String) : Prop :=
  ∃ pre u, s.data = pre ++ "return".data ++ u ∧ matchTailSplit u

/-- The helper `os.path.splitext` applied to a bare filename: split at the
last dot, unless every character before that dot is itself a dot (a
leading-dot filename has no extension). -/
def splitext (s : String) : String × String :=
  match s.data.reverse.findIdx? (· == '.') with
  | Option.none => (s, "")
  | some j =>
    let i := s.data.length - 1 - j
    if (s.data.take i).all (· == '.') then (s, "")
    else (⟨s.data.take i⟩, ⟨s.data.drop i⟩)

/-- Worker for `str.splitlines`: split on `\n`, `\r\n` and `\r`, with no
trailing empty line for a terminal line break.  (The additional Unicode line
boundaries Python recognizes do not occur in Lua sources handled here.) -/
def splitLinesGo : List Char → List Char → List (List Char)
  | [], [] => []
  | [], cur => [cur.reverse]
  | '\r' :: '\n' :: rest, cur => cur.reverse :: splitLinesGo rest []
  | '\n' :: rest, cur => cur.reverse :: splitLinesGo rest []
  | '\r' :: rest, cur => cur.reverse :: splitLinesGo rest []
  | c :: rest, cur => splitLinesGo rest (c :: cur)

/-- Python's `str.splitlines`. -/
def splitLines (cs : List Char) : List (List Char) := splitLinesGo cs []

/-- An `xml.etree.ElementTree.Element`: a tag, an ordered attribute list, an
optional text, and an ordered list of child elements. -/
inductive Element where
  | mk (tag : String) (attrs : List (String × String)) (text : Option String)
      (children : List Element)

def Element.tag : Element → String
  | .mk t _ _ _ => t

def Element.attrs : Element → List (String × String)
  | .mk _ a _ _ => a

def Element.text : Element → Option String
  | .mk _ _ x _ => x

def Element.children : Element → List Element
  | .mk _ _ _ c => c

/-- ElementTree attribute lookup `element.attrib.get(key)`. -/
def Element.attr (e : Element) (k : String) : Option String :=
  (e.attrs.find? (fun p => p.1 == k)).map (·.2)

/-- ElementTree `element.set(key, value)`: update an existing attribute in
place or append a new one. -/
def Element.setAttr (e : Element) (k v : String) : Element :=
  match e with
  | .mk t a x c =>
    if a.any (fun p => p.1 == k) then
      .mk t (a.map (fun p => if p.1 == k then (k, v) else p)) x c
    else
      .mk t (a ++ [(k, v)]) x c

/-- Assignment `element.text = v`. -/
def Element.setText (e : Element) (v : Option String) : Element :=
  match e with
  | .mk t a _ c => .mk t a v c

/-- ElementTree `parent.append(child)`. -/
def Element.appendChild (e child : Element) : Element :=
  match e with
  | .mk t a x c => .mk t a x (c ++ [child])

/-- Update the first entry of a list satisfying `p` — the purely functional
rendering of mutating the element returned by an ElementTree `find`. -/
def updateFirst {α : Type} (p : α → Bool) (f : α → α) : List α → List α
  | [] => []
  | e :: rest => if p e then f e :: rest else e :: updateFirst p f rest

/-- A fresh `<Properties>` element (`PropertyElement.__init__`). -/
def newProperties : Element := .mk "Properties" [] Option.none []

/-- The predicate behind `PropertyElement.get`'s XPath query
`*[@name='N']`: a child whose `name` attribute equals `N`. -/
def hasName (n : String) (e : Element) : Bool := e.attr "name" == some n

/-- `PropertyElement.add`: append `<tag name="name">text</tag>` to the
properties, sanitizing the text.  No duplicate check of any kind. -/
def propsAdd (props : Element) (tag name : String) (text : PyVal) : Element :=
  props.appendChild (.mk tag [("name", name)] (sanitize text) [])

/-- `PropertyElement.get`: an ElementTree `find`, which returns the first
matching child in document order. -/
def propsGet (props : Element) (name : String) : Option Element :=
  props.children.find? (hasName name)

/-- `PropertyElement.set`: overwrite the text of the property found by `get`;
when `get` returns `None` nothing happens. -/
def propsSet (props : Element) (name value : String) : Element :=
  match props with
  | .mk t a x c =>
    .mk t a x (updateFirst (hasName name) (fun p => p.setText (some value)) c)

/-- Python's `name or class_name` in `InstanceElement.__init__`: both `None`
and the empty string are falsy and fall back to the class name. -/
def pyOrName (name : Option String) (className : String) : String :=
  match name with
  | Option.none => className
  | some s => if s = "" then className else s

/-- `InstanceElement.__init__` (rbxmx.py): an `<Item class="...">` element
holding a `<Properties>` child with one `Name` string property. -/
def instanceElement (className : String) (name : Option String) : Element :=
  .mk "Item" [("class", className)] Option.none
    [propsAdd newProperties "string" "Name" (.str (pyOrName name className))]

/-- `ContainerElement.__init__` (rbxmx.py); `class_name` defaults to
`"Folder"` at its call sites. -/
def containerElement (className : String) (name : Option String) : Element :=
  instanceElement className name

/-- The `Properties` child of an instance element (the `self.properties`
alias: the unique child created by `InstanceElement.__init__`). -/
def Element.propertiesChild (e : Element) : Option Element :=
  e.children.find? (fun c => c.tag == "Properties")

/-- Apply an update to the `Properties` child of an instance element. -/
def Element.updateProperties (e : Element) (f : Element → Element) : Element :=
  match e with
  | .mk t a x c => .mk t a x (updateFirst (fun d => d.tag == "Properties") f c)

/-- `self.properties.get(name)` seen from the instance element. -/
def Element.propGet (e : Element) (name : String) : Option Element :=
  e.propertiesChild.bind (fun p => propsGet p name)

/-- The text of the property `name` of an instance element. -/
def Element.propText (e : Element) (name : String) : Option String :=
  (e.propGet name).bind Element.text

/-- `self.properties.add(tag, name, text)` seen from the instance element. -/
def Element.propAdd (e : Element) (tag name : String) (text : PyVal) : Element :=
  e.updateProperties (fun p => propsAdd p tag name text)

/-- `self.properties.set(name, value)` seen from the instance element. -/
def Element.propSet (e : Element) (name value : String) : Element :=
  e.updateProperties (fun p => propsSet p name value)

/-- `ScriptElement.__init__` (rbxmx.py): an instance element with a `Source`
(ProtectedString) and a `Disabled` (bool) property added after `Name`. -/
def scriptElement (className : String) (name : Option String)
    (source : Option String) (disabled : Bool) : Element :=
  ((instanceElement className name).propAdd "ProtectedString" "Source"
      (match source with | Option.none => PyVal.none | some s => .str s)).propAdd
    "bool" "Disabled" (.bool disabled)

/-- Accumulation loop of `ScriptElement.get_first_comment`: collect comment
lines; a non-comment line breaks the loop only after at least one comment
line was found, otherwise it is skipped. -/
def firstCommentLoop : List (List Char) → Bool → List (List Char) → List (List Char)
  | [], _, acc => acc
  | l :: rest, found, acc =>
    if isLuaCommentLine l then firstCommentLoop rest true (acc ++ [l])
    else if found then acc
    else firstCommentLoop rest found acc

/-- Python's `"\n".join(comment_lines)`. -/
def joinLines (ls : List (List Char)) : List Char := List.intercalate ['\n'] ls

/-- The comment block found by running the accumulation loop over a list of
lines: `None` when no line was collected. -/
def firstCommentBlock (lines : List (List Char)) : Option String :=
  let commentLines := firstCommentLoop lines false []
  if commentLines = [] then Option.none else some ⟨joinLines commentLines⟩

/-- `ScriptElement.get_first_comment`, as a function of the `Source` text:
`None` for a falsy source (absent or empty), otherwise the first contiguous
block of Lua comment lines joined with newlines, or `None` when the source
contains no comment line at all. -/
def getFirstComment (source : Option String) : Option String :=
  match source with
  | Option.none => Option.none
  | some s => if s = "" then Option.none else firstCommentBlock (splitLines s.data)

/-- Backtracking for the `\s+(?P<value>.+)` part of the embedded-property
pattern: `\s+` is greedy but gives characters back (down to one) until `.+`
can match at least one newline-free character.  The argument is the length of
the whitespace run currently tried; the result is the value group and the
number of characters consumed after the colon. -/
def matchValueFrom (afterColon : List Char) : Nat → Option (List Char × Nat)
  | 0 => Option.none
  | k + 1 =>
    match afterColon.drop (k + 1) with
    | c :: _ =>
      if c == '\n' then matchValueFrom afterColon k
      else
        let v := (afterColon.drop (k + 1)).takeWhile (fun d => !(d == '\n'))
        some (v, k + 1 + v.length)
    | [] => matchValueFrom afterColon k

/-- Try to match the embedded-property pattern
`(?P<name>\w+):\s+(?P<value>.+)` at the start of `cs`.  Returns the two
groups together with the total number of characters consumed. -/
def tryMatchAt (cs : List Char) : Option (List Char × List Char × Nat) :=
  let w := cs.takeWhile isWordChar
  if w = [] then Option.none
  else
    match cs.drop w.length with
    | ':' :: afterColon =>
      match matchValueFrom afterColon (afterColon.takeWhile isPySpace).length with
      | some (v, n) => some (w, v, w.length + 1 + n)
      | Option.none => Option.none
    | _ => Option.none

/-- The `finditer` scan over the comment: try to match at every position from
left to right, resuming after the end of each match.  The fuel starts at the
input length; every step consumes at least one character, so it never runs
out. -/
def scanPropsGo : Nat → List Char → List (List Char × List Char)
  | 0, _ => []
  | _, [] => []
  | fuel + 1, c :: rest =>
    match tryMatchAt (c :: rest) with
    | some (k, v, n) => (k, v) :: scanPropsGo fuel ((c :: rest).drop n)
    | Option.none => scanPropsGo fuel rest

/-- All matches of `(?P<name>\w+):\s+(?P<value>.+)` in a comment. -/
def scanProps (cs : List Char) : List (List Char × List Char) :=
  scanPropsGo cs.length cs

/-- One insertion into a Python dict (`d[k] = v`): an existing key keeps its
position but takes the new value; a new key is appended at the end. -/
def dictInsert (d : List (String × String)) (k v : String) : List (String × String) :=
  if d.any (fun p => p.1 == k) then
    d.map (fun p => if p.1 == k then (k, v) else p)
  else d ++ [(k, v)]

/-- The dict built by the `finditer` loop of `get_embedded_properties`. -/
def propertyDict (comment : List Char) : List (String × String) :=
  (scanProps comment).foldl (fun d kv => dictInsert d ⟨kv.1⟩ ⟨kv.2⟩) []

/-- `ScriptElement.get_embedded_properties`, as a function of the `Source`
text: `None` when there is no comment block, otherwise the dict of
`Key: Value` pairs found in the comment. -/
def sourceEmbeddedProperties (source : Option String) :
    Option (List (String × String)) :=
  match getFirstComment source with
  | Option.none => Option.none
  | some comment => some (propertyDict comment.data)

/-- One iteration of the `use_embedded_properties` loop: the key `ClassName`
overrides the `class` attribute of the item; every other key is routed
through `PropertyElement.set`. -/
def applyOverride (e : Element) (kv : String × String) : Element :=
  if kv.1 = "ClassName" then e.setAttr "class" kv.2 else e.propSet kv.1 kv.2

/-- `ScriptElement.use_embedded_properties`: a missing comment or an empty
dict (both falsy, `if not properties`) leaves the element untouched,
otherwise each entry of the dict is applied in order. -/
def useEmbeddedProperties (e : Element) : Element :=
  match sourceEmbeddedProperties (e.propText "Source") with
  | Option.none => e
  | some d => if d = [] then e else d.foldl applyOverride e

/-- `BaseProcessor.process_folder` (processors.py). -/
def processFolder (name : String) : Element := containerElement "Folder" (some name)

/-- `BaseProcessor.process_script` (processors.py): classify the content with
the module heuristic, build a `ScriptElement`, apply embedded overrides. -/
def processScript (name content : String) : Element :=
  useEmbeddedProperties
    (scriptElement (get_script_type content) (some name) (some content) false)

/-- `NevermoreProcessor.process_script` (processors.py): run the base
processing, then set the `Disabled` text to `"true"` (through the
`script.disabled` alias, the unique property named `Disabled`) for every
script that is neither named exactly `NevermoreEngineLoader` nor carries the
class attribute `ModuleScript`. -/
def nevermoreProcessScript (name content : String) : Element :=
  let script := processScript name content
  let isEngineLoader := name == "NevermoreEngineLoader"
  let isModuleClass := script.attr "class" == some "ModuleScript"
  if !isEngineLoader && !isModuleClass then script.propSet "Disabled" "true"
  else script

/-- `ModelElement.append_to` (rbxmx.py): the model's own envelope root is
discarded; its direct children are appended one by one
(`for element in list(xml): parent_element.append(element)`). -/
def modelAppendTo (root parent : Element) : Element :=
  root.children.foldl Element.appendChild parent

/-- `ModelCompiler._import_model` (compilers.py): the identical splice, done
by the compiler when the processed element is a `ModelElement`. -/
def importModel (hierarchy modelXml : Element) : Element :=
  modelXml.children.foldl Element.appendChild hierarchy

/-- A filesystem entry as seen by the walk: a directory with entries in
`os.listdir` order, or a file with its text content. -/
inductive FSEntry where
  | dir (name : String) (entries : List FSEntry)
  | file (name : String) (content : String)

/-- The result of `ModelCompiler._get_element`: either a plain instance
element or a model element whose children must be spliced. -/
inductive Processed where
  | inst (xml : Element)
  | model (root : Element)

/-- `ModelCompiler._get_element` (compilers.py): a directory becomes a
processed folder, a `.lua` file a processed script, a `.rbxmx` file a model
whose content is handed to the external XML parser `parse`, and a file with
any other extension falls through both branches — Python returns `None`. -/
def getElement (parse : String → Element) (entry : FSEntry) : Option Processed :=
  match entry with
  | .dir name _ => some (.inst (processFolder (splitext name).1))
  | .file name content =>
    let ne := splitext name
    if ne.2 = ".lua" then some (.inst (processScript ne.1 content))
    else if ne.2 = ".rbxmx" then some (.model (parse content))
    else Option.none

/-- The recursive walk `recurse` inside `ModelCompiler._create_hierarchy`,
with the dispatch of `_get_element` inlined so that the recursion into
sub-directories is over the entry list.  For a file whose extension is
neither `.lua` nor `.rbxmx`, `_get_element` returns `None` and the very next
line `xml = element.element` raises `AttributeError`, modelled as an error
result that aborts the walk. -/
def walkList (parse : String → Element) :
    List FSEntry → Element → Except String Element
  | [], hierarchy => Except.ok hierarchy
  | FSEntry.dir name entries :: rest, hierarchy =>
    match walkList parse entries (processFolder (splitext name).1) with
    | Except.error msg => Except.error msg
    | Except.ok xml => walkList parse rest (hierarchy.appendChild xml)
  | FSEntry.file name content :: rest, hierarchy =>
    let ne := splitext name
    if ne.2 = ".lua" then
      walkList parse rest (hierarchy.appendChild (processScript ne.1 content))
    else if ne.2 = ".rbxmx" then
      walkList parse rest (importModel hierarchy (parse content))
    else
      Except.error "AttributeError: NoneType object has no attribute element"

/-- `ModelCompiler._create_hierarchy` (compilers.py) begins with
`root_xml = rbxmx.get_base_tag()`; the `rbxmx` module defines no function of
that name (only `get_roblox_tag`), so in Python the attribute lookup itself
raises `AttributeError` before any filesystem entry is visited. -/
def createHierarchy (_parse : String → Element) (_root : List FSEntry) :
    Except String Element :=
  Except.error "AttributeError: module elixir.rbxmx has no attribute get_base_tag"

/-- The text of the `Disabled` property of a script element. -/
def disabledText (e : Element) : Option String := e.propText "Disabled"

/-- The text of the `Name` property of an instance element. -/
def nameText (e : Element) : Option String := e.propText "Name"

/-- The `class` attribute of an instance element. -/
def classAttr (e : Element) : Option String := e.attr "class"

/-- Modelled from the spec: the classification condition claimed for the
module heuristic — after discarding trailing whitespace, the text ends in a
`return <anything>` statement.  `return` must begin a statement (it is not
immediately preceded by a word character, so the tail of an identifier such
as `myreturn` does not qualify), is followed by at least one whitespace
character, and the newline-free remainder of the trailing line is the
returned expression. -/
def trailingReturnStatement (s : String) : Bool :=
  let t := (s.data.reverse.dropWhile isPySpace).reverse
  (List.range t.length).any (fun i =>
    (i == 0 || (match t[i-1]? with
                | some c => !(isWordChar c)
                | Option.none => false)) &&
    "return".data.isPrefixOf (t.drop i) &&
    (match t.drop (i + 6) with
     | [] => false
     | c :: _ =>
       isPySpace c &&
         ((t.drop (i + 6)).dropWhile isPySpace).all (fun d => !(d == '\n'))))

/-!
### General lemmas about the list operations used by the embedding
-/

theorem updateFirst_eq_self {α : Type} (p : α → Bool) (f : α → α) :
    ∀ l : List α, (∀ x, l.find? p = some x → f x = x) → updateFirst p f l = l := by
  intro l
  induction l with
  | nil => intro _; rfl
  | cons e rest ih =>
    intro h
    by_cases hp : p e
    · have he : f e = e := h e (List.find?_cons_of_pos _ hp)
      simp [updateFirst, hp, he]
    · simp only [updateFirst, if_neg hp]
      rw [ih (fun x hx => h x (by rw [List.find?_cons_of_neg _ hp]; exact hx))]

theorem find?_updateFirst_same {α : Type} (p : α → Bool) (f : α → α)
    (hf : ∀ x, p x = true → p (f x) = true) :
    ∀ l : List α, (updateFirst p f l).find? p = (l.find? p).map f := by
  intro l
  induction l with
  | nil => rfl
  | cons e rest ih =>
    by_cases hp : p e
    · simp only [updateFirst, if_pos hp]
      rw [List.find?_cons_of_pos _ (hf e hp), List.find?_cons_of_pos _ hp]
      rfl
    · simp only [updateFirst, if_neg hp]
      rw [List.find?_cons_of_neg _ hp, List.find?_cons_of_neg _ hp, ih]

theorem find?_updateFirst_ne {α : Type} (p q : α → Bool) (f : α → α)
    (hdisj : ∀ x, q x = true → p x = false) (hf : ∀ x, p (f x) = p x) :
    ∀ l : List α, (updateFirst q f l).find? p = l.find? p := by
  intro l
  induction l with
  | nil => rfl
  | cons e rest ih =>
    by_cases hq : q e
    · have hpe : p e = false := hdisj e hq
      have hpf : ¬ (p (f e) = true) := by rw [hf]; simp [hpe]
      have hpe' : ¬ (p e = true) := by simp [hpe]
      simp only [updateFirst, if_pos hq]
      rw [List.find?_cons_of_neg _ hpf, List.find?_cons_of_neg _ hpe']
    · simp only [updateFirst, if_neg hq]
      by_cases hp : p e
      · rw [List.find?_cons_of_pos _ hp, List.find?_cons_of_pos _ hp]
      · rw [List.find?_cons_of_neg _ hp, List.find?_cons_of_neg _ hp, ih]

theorem foldl_appendChild_children :
    ∀ (cs : List Element) (e : Element),
      (cs.foldl Element.appendChild e).children = e.children ++ cs := by
  intro cs
  induction cs with
  | nil => intro e; simp
  | cons c cs ih =>
    intro e
    rw [List.foldl_cons, ih]
    cases e with
    | mk t a x ch => simp [Element.appendChild, Element.children]

theorem foldl_appendChild_tag :
    ∀ (cs : List Element) (e : Element),
      (cs.foldl Element.appendChild e).tag = e.tag := by
  intro cs
  induction cs with
  | nil => intro e; rfl
  | cons c cs ih =>
    intro e
    rw [List.foldl_cons, ih]
    cases e with
    | mk t a x ch => rfl

/-!
### Lemmas about the element and property operations
-/

theorem children_setAttr (e : Element) (k v : String) :
    (e.setAttr k v).children = e.children := by
  cases e with
  | mk t a x c =>
    simp only [Element.setAttr]
    split <;> rfl

theorem propGet_setAttr (e : Element) (k v n : String) :
    (e.setAttr k v).propGet n = e.propGet n := by
  unfold Element.propGet Element.propertiesChild
  rw [children_setAttr]

theorem attr_setText (e : Element) (v : Option String) (k : String) :
    (e.setText v).attr k = e.attr k := by
  cases e with
  | mk t a x c => rfl

theorem hasName_setText (n : String) (x : Element) (v : Option String) :
    hasName n (x.setText v) = hasName n x := by
  unfold hasName
  rw [attr_setText]

theorem tag_propsSet (P : Element) (n v : String) : (propsSet P n v).tag = P.tag := by
  cases P with
  | mk t a x c => rfl

theorem attr_updateProperties (e : Element) (f : Element → Element) (k : String) :
    (e.updateProperties f).attr k = e.attr k := by
  cases e with
  | mk t a x c => rfl

theorem attr_propSet (e : Element) (n v k : String) :
    (e.propSet n v).attr k = e.attr k :=
  attr_updateProperties e _ k

theorem propGet_propSet_self (e : Element) (n v : String) :
    (e.propSet n v).propGet n = (e.propGet n).map (fun pr => pr.setText (some v)) := by
  cases e with
  | mk t a x c =>
    simp only [Element.propSet, Element.updateProperties, Element.propGet,
      Element.propertiesChild, Element.children]
    rw [find?_updateFirst_same _ _ (fun P hP => by rw [tag_propsSet]; exact hP)]
    cases hfind : c.find? (fun d => d.tag == "Properties") with
    | none => rfl
    | some P =>
      cases P with
      | mk tP aP xP cP =>
        simp only [Option.map_some', Option.some_bind, propsSet, propsGet, Element.children]
        rw [find?_updateFirst_same _ _ (fun x hx => by rw [hasName_setText]; exact hx)]

theorem propGet_propSet_ne (e : Element) (n v n' : String) (h : n ≠ n') :
    (e.propSet n v).propGet n' = e.propGet n' := by
  cases e with
  | mk t a x c =>
    simp only [Element.propSet, Element.updateProperties, Element.propGet,
      Element.propertiesChild, Element.children]
    rw [find?_updateFirst_same _ _ (fun P hP => by rw [tag_propsSet]; exact hP)]
    cases hfind : c.find? (fun d => d.tag == "Properties") with
    | none => rfl
    | some P =>
      cases P with
      | mk tP aP xP cP =>
        simp only [Option.map_some', Option.some_bind, propsSet, propsGet, Element.children]
        rw [find?_updateFirst_ne (hasName n') (hasName n) _ ?_ (fun x => hasName_setText n' x _)]
        intro y hy
        unfold hasName at hy ⊢
        have hy' : y.attr "name" = some n := by
          have := eq_of_beq hy
          exact this
        rw [hy']
        simp [h]

theorem propText_propSet_self (e : Element) (n v : String)
    (h : (e.propGet n).isSome) : (e.propSet n v).propText n = some v := by
  unfold Element.propText
  rw [propGet_propSet_self]
  cases hg : e.propGet n with
  | none => rw [hg] at h; simp at h
  | some pr =>
    cases pr with
    | mk tp ap xp cp => rfl

theorem propGet_applyOverride_ne (e : Element) (kv : String × String) (n : String)
    (hn : kv.1 ≠ n) : (applyOverride e kv).propGet n = e.propGet n := by
  unfold applyOverride
  by_cases hcn : kv.1 = "ClassName"
  · rw [if_pos hcn, propGet_setAttr]
  · rw [if_neg hcn, propGet_propSet_ne e kv.1 kv.2 n hn]

theorem propGet_foldl_applyOverride_ne :
    ∀ (d : List (String × String)) (e : Element) (n : String),
      (∀ kv ∈ d, kv.1 ≠ n) → (d.foldl applyOverride e).propGet n = e.propGet n := by
  intro d
  induction d with
  | nil => intro e n _; rfl
  | cons kv d ih =>
    intro e n h
    rw [List.foldl_cons, ih _ n (fun x hx => h x (by simp [hx])),
      propGet_applyOverride_ne e kv n (h kv (by simp))]

theorem propGet_foldl_applyOverride_isSome :
    ∀ (d : List (String × String)) (e : Element) (n : String),
      (e.propGet n).isSome → ((d.foldl applyOverride e).propGet n).isSome := by
  intro d
  induction d with
  | nil => intro e n h; exact h
  | cons kv d ih =>
    intro e n h
    rw [List.foldl_cons]
    apply ih
    by_cases hcn : kv.1 = "ClassName"
    · unfold applyOverride
      rw [if_pos hcn, propGet_setAttr]
      exact h
    · by_cases hn : kv.1 = n
      · unfold applyOverride
        rw [if_neg hcn, hn, propGet_propSet_self]
        simpa using h
      · rw [propGet_applyOverride_ne e kv n hn]
        exact h

/-!
### Lemmas about the comment scanner
-/

theorem firstCommentLoop_skip :
    ∀ (pre rest : List (List Char)), (∀ l ∈ pre, isLuaCommentLine l = false) →
      firstCommentLoop (pre ++ rest) false [] = firstCommentLoop rest false [] := by
  intro pre
  induction pre with
  | nil => intro rest _; rfl
  | cons l pre ih =>
    intro rest h
    have hl : isLuaCommentLine l = false := h l (by simp)
    show firstCommentLoop (l :: (pre ++ rest)) false [] = _
    rw [show firstCommentLoop (l :: (pre ++ rest)) false []
        = firstCommentLoop (pre ++ rest) false [] by simp [firstCommentLoop, hl]]
    exact ih rest (fun x hx => h x (by simp [hx]))

theorem firstCommentLoop_all :
    ∀ (block : List (List Char)) (acc : List (List Char)) (found : Bool),
      (∀ l ∈ block, isLuaCommentLine l = true) →
      firstCommentLoop block found acc = acc ++ block := by
  intro block
  induction block with
  | nil => intro acc found _; simp [firstCommentLoop]
  | cons l bl ih =>
    intro acc found h
    have hl := h l (by simp)
    rw [show firstCommentLoop (l :: bl) found acc
        = firstCommentLoop bl true (acc ++ [l]) by simp [firstCommentLoop, hl]]
    rw [ih (acc ++ [l]) true (fun x hx => h x (by simp [hx]))]
    simp

theorem firstCommentBlock_split (pre block : List (List Char))
    (hpre : ∀ l ∈ pre, isLuaCommentLine l = false) (hne : block ≠ [])
    (hblock : ∀ l ∈ block, isLuaCommentLine l = true) :
    firstCommentBlock (pre ++ block) = some ⟨joinLines block⟩ := by
  unfold firstCommentBlock
  rw [firstCommentLoop_skip pre block hpre, firstCommentLoop_all block [] false hblock]
  simp [hne]

/-!
### Claim C7 — model splice
-/

/-- C7: a classified ModelFragment is not appended as a child Instance: its
envelope root is discarded and exactly its direct children are spliced into
the parent's children sequence in their original relative order; in
particular a fragment with exactly two child elements adds exactly two
children to the parent and zero elements for the envelope itself. -/
theorem C7_model_splice (root parent : Element) :
    (importModel parent root).children = parent.children ++ root.children
    ∧ (modelAppendTo root parent).children = parent.children ++ root.children
    ∧ (importModel parent root).tag = parent.tag
    ∧ (root.children.length = 2 →
        (importModel parent root).children.length = parent.children.length + 2) := by
  refine ⟨foldl_appendChild_children _ _, foldl_appendChild_children _ _,
    foldl_appendChild_tag _ _, fun h2 => ?_⟩
  show (root.children.foldl Element.appendChild parent).children.length = _
  rw [foldl_appendChild_children, List.length_append, h2]

/-- Witness for C7 at a concrete fragment with exactly two children. -/
theorem C7_witness :
    (importModel (Element.mk "roblox" [] Option.none [])
        (Element.mk "roblox" [] Option.none
          [Element.mk "Item" [("class", "Folder")] Option.none [],
           Element.mk "Item" [("class", "Script")] Option.none []])).children.length
      = (Element.mk "roblox" [] Option.none []).children.length + 2 :=
  (C7_model_splice
    (Element.mk "roblox" [] Option.none
      [Element.mk "Item" [("class", "Folder")] Option.none [],
       Element.mk "Item" [("class", "Script")] Option.none []])
    (Element.mk "roblox" [] Option.none [])).2.2.2 rfl

/-!
### Claim C8 — `set` on an unknown property name is a silent no-op
-/

/-- C8: for every property set and every name not present in it, `set` leaves
the property set unchanged and raises no error; consequently an embedded
override whose key matches no property on the instance (and is not the
special `ClassName` key) is silently dropped. -/
theorem C8_set_unknown_noop :
    (∀ (props : Element) (name value : String),
      propsGet props name = Option.none → propsSet props name value = props)
    ∧ (∀ (e : Element) (k v : String), k ≠ "ClassName" →
        e.propGet k = Option.none → applyOverride e (k, v) = e) := by
  constructor
  · intro props name value hnone
    cases props with
    | mk t a x c =>
      have hfind : c.find? (hasName name) = Option.none := hnone
      simp only [propsSet]
      rw [updateFirst_eq_self _ _ c (fun y hy => by rw [hfind] at hy; cases hy)]
  · intro e k v hk hnone
    cases e with
    | mk t a x c =>
      simp only [applyOverride, if_neg hk, Element.propSet, Element.updateProperties]
      have hget : (List.find? (fun d => d.tag == "Properties") c).bind
          (fun p => propsGet p k) = Option.none := hnone
      cases hfind : c.find? (fun d => d.tag == "Properties") with
      | none =>
        rw [updateFirst_eq_self _ _ c (fun y hy => by rw [hfind] at hy; cases hy)]
      | some P =>
        rw [hfind] at hget
        have hPnone : propsGet P k = Option.none := hget
        have hPfix : propsSet P k v = P := by
          cases P with
          | mk tP aP xP cP =>
            have hfindP : cP.find? (hasName k) = Option.none := hPnone
            simp only [propsSet]
            rw [updateFirst_eq_self _ _ cP (fun y hy => by rw [hfindP] at hy; cases hy)]
        rw [updateFirst_eq_self _ _ c (fun y hy => by
          rw [hfind] at hy
          cases hy
          exact hPfix)]

/-- Witness for C8: setting the absent property `Disabled` on a property set
holding only `Name`, and applying an unknown override key to a folder
instance, both leave the data untouched. -/
theorem C8_witness :
    propsSet (propsAdd newProperties "string" "Name" (.str "A")) "Disabled" "true"
      = propsAdd newProperties "string" "Name" (.str "A")
    ∧ applyOverride (instanceElement "Folder" Option.none) ("Answer", "42")
      = instanceElement "Folder" Option.none :=
  ⟨C8_set_unknown_noop.1 _ "Disabled" "true" rfl,
   C8_set_unknown_noop.2 _ "Answer" "42" (by decide) rfl⟩

/-!
### Claim C9 — an empty-string name falls back to the class tag
-/

/-- C9: every instance element (plain, container or script) constructed with
the empty string as its name argument gets the class tag as its `Name`
property: the default applies to any falsy name, not only an omitted one. -/
theorem C9_empty_name_falls_back (cn : String) (src : Option String) (d : Bool) :
    nameText (instanceElement cn (some "")) = some cn
    ∧ nameText (containerElement cn (some "")) = some cn
    ∧ nameText (scriptElement cn (some "") src d) = some cn
    ∧ nameText (instanceElement cn Option.none) = some cn := by
  refine ⟨rfl, rfl, ?_, rfl⟩
  cases src with
  | none => rfl
  | some s => rfl

/-!
### Claim C3 — duplicate property names: `add` appends, `get` takes the first
-/

/-- C3 counterexample: after adding two properties named `X` (values `a` then
`b`), `get` returns the FIRST one added — the claim's "later wins at lookup
time" is false, the first write does survive. -/
theorem C3_counterexample_get_returns_first :
    ((propsGet (propsAdd (propsAdd newProperties "string" "X" (.str "a"))
        "string" "X" (.str "b")) "X").bind Element.text) = some "a"
    ∧ some "a" ≠ some "b" := by
  constructor
  · rfl
  · decide

/-- C3 amended: `add` appends without any duplicate check (the size always
grows), and when two properties with the same name exist, `get` returns the
one added FIRST (document order), so the earliest write wins at lookup time. -/
theorem C3_add_appends_get_first_wins (props : Element) (t1 t2 k : String)
    (pv1 pv2 : PyVal) (hfresh : propsGet props k = Option.none) :
    propsGet (propsAdd (propsAdd props t1 k pv1) t2 k pv2) k
      = some (Element.mk t1 [("name", k)] (sanitize pv1) [])
    ∧ (propsAdd (propsAdd props t1 k pv1) t2 k pv2).children.length
      = props.children.length + 2 := by
  cases props with
  | mk t a x c =>
    have hfind : c.find? (hasName k) = Option.none := hfresh
    have hname : hasName k (Element.mk t1 [("name", k)] (sanitize pv1) []) = true := by
      simp [hasName, Element.attr, Element.attrs]
    constructor
    · show (((c ++ [Element.mk t1 [("name", k)] (sanitize pv1) []]) ++
          [Element.mk t2 [("name", k)] (sanitize pv2) []]).find? (hasName k)) = _
      rw [List.find?_append, List.find?_append, hfind]
      simp only [Option.none_or]
      rw [List.find?_cons_of_pos _ hname]
      rfl
    · show ((c ++ [Element.mk t1 [("name", k)] (sanitize pv1) []]) ++
          [Element.mk t2 [("name", k)] (sanitize pv2) []]).length = c.length + 2
      simp

/-- Witness for C3 at the concrete duplicate-name scenario. -/
theorem C3_witness :
    propsGet (propsAdd (propsAdd newProperties "string" "X" (.str "a"))
        "string" "X" (.str "b")) "X"
      = some (Element.mk "string" [("name", "X")] (sanitize (.str "a")) [])
    ∧ (propsAdd (propsAdd newProperties "string" "X" (.str "a"))
        "string" "X" (.str "b")).children.length = 2 :=
  C3_add_appends_get_first_wins newProperties "string" "string" "X"
    (.str "a") (.str "b") rfl

/-!
### Claim C1 — unknown file extensions crash the walk instead of being skipped
-/

/-- C1: evaluating the hierarchy walk at the failing input.  For a file whose
extension is neither `.lua` nor `.rbxmx`, `_get_element` returns `None`, and
the walk's very next line `xml = element.element` raises `AttributeError` —
the compile aborts with an error instead of skipping the entry silently.
(Independently, `_create_hierarchy` aborts on every input because it calls
`rbxmx.get_base_tag`, which does not exist.) -/
theorem C1_unknown_extension_walk_raises (parse : String → Element)
    (hierarchy : Element) (entries : List FSEntry) :
    getElement parse (FSEntry.file "notes.txt" "hello") = Option.none
    ∧ walkList parse [FSEntry.file "notes.txt" "hello"] hierarchy
        = Except.error "AttributeError: NoneType object has no attribute element"
    ∧ createHierarchy parse entries
        = Except.error
            "AttributeError: module elixir.rbxmx has no attribute get_base_tag" := by
  refine ⟨rfl, ?_, rfl⟩
  rw [walkList]
  rfl

/-!
### Claim C2 — the parser finds a comment block anywhere, not only a leading one
-/

/-- C2 counterexample: a script source whose first line is not a comment but
which has a comment block later.  The parser returns that later block, the
embedded properties are extracted from it, and the `Name` override IS
applied — refuting the claim that such a source yields no properties and no
overrides. -/
theorem C2_counterexample_later_comment_found :
    isLuaCommentLine ("x = 1".data) = false
    ∧ getFirstComment (some "x = 1\n-- Name: Foo\ny = 2") = some "-- Name: Foo"
    ∧ nameText (processScript "Test" "x = 1\n-- Name: Foo\ny = 2") = some "Foo"
    ∧ nameText (scriptElement (get_script_type "x = 1\n-- Name: Foo\ny = 2")
        (some "Test") (some "x = 1\n-- Name: Foo\ny = 2") false) = some "Test" := by
  refine ⟨rfl, ?_, ?_, rfl⟩
  · decide
  · decide

/-- C2 amended: lines before the first comment line are skipped, not
terminating: the parser recognizes the FIRST comment block anywhere in the
source.  Only a source with no comment line at all yields no properties. -/
theorem C2_first_comment_block_anywhere :
    (∀ pre rest : List (List Char), (∀ l ∈ pre, isLuaCommentLine l = false) →
      firstCommentBlock (pre ++ rest) = firstCommentBlock rest)
    ∧ (∀ s : String, (∀ l ∈ splitLines s.data, isLuaCommentLine l = false) →
        sourceEmbeddedProperties (some s) = Option.none) := by
  have hblock : ∀ pre rest : List (List Char),
      (∀ l ∈ pre, isLuaCommentLine l = false) →
      firstCommentBlock (pre ++ rest) = firstCommentBlock rest := by
    intro pre rest h
    unfold firstCommentBlock
    rw [firstCommentLoop_skip pre rest h]
  refine ⟨hblock, fun s hs => ?_⟩
  show (match (if s = "" then Option.none else firstCommentBlock (splitLines s.data)) with
    | Option.none => Option.none
    | some comment => some (propertyDict comment.data)) = Option.none
  by_cases hempty : s = ""
  · rw [if_pos hempty]
  · rw [if_neg hempty]
    have hnone : firstCommentBlock (splitLines s.data) = Option.none := by
      have h2 := hblock (splitLines s.data) [] hs
      rw [List.append_nil] at h2
      rw [h2]
      rfl
    rw [hnone]

/-- Witness for C2 at concrete inputs: a source with no comment line yields
no embedded properties, and a non-comment prefix line is skipped by the
block scanner. -/
theorem C2_witness :
    sourceEmbeddedProperties (some "x = 1\ny = 2") = Option.none
    ∧ firstCommentBlock (["x = 1".data] ++ ["-- a b".data])
      = firstCommentBlock ["-- a b".data] :=
  ⟨C2_first_comment_block_anywhere.2 "x = 1\ny = 2" (by decide),
   C2_first_comment_block_anywhere.1 ["x = 1".data] ["-- a b".data] (by decide)⟩

/-!
### Claim C10 — a comment block reaching the end of the file is still returned
-/

/-- C10: when the comment block extends to the end of the source (no
non-comment line follows), the block is still returned and the embedded
properties are extracted from it, rather than the result being `None`. -/
theorem C10_comment_block_at_eof (s : String) (pre block : List (List Char))
    (hsplit : splitLines s.data = pre ++ block)
    (hpre : ∀ l ∈ pre, isLuaCommentLine l = false)
    (hne : block ≠ [])
    (hblock : ∀ l ∈ block, isLuaCommentLine l = true) :
    getFirstComment (some s) = some ⟨joinLines block⟩
    ∧ sourceEmbeddedProperties (some s) = some (propertyDict (joinLines block)) := by
  have hsne : s ≠ "" := by
    intro habs
    rw [habs] at hsplit
    have : block = [] := by
      cases hp : pre with
      | nil => rw [hp] at hsplit; exact hsplit.symm
      | cons a l => rw [hp] at hsplit; cases hsplit
    exact hne this
  have hcomment : getFirstComment (some s) = some ⟨joinLines block⟩ := by
    show (if s = "" then Option.none else firstCommentBlock (splitLines s.data))
      = some ⟨joinLines block⟩
    rw [if_neg hsne, hsplit]
    exact firstCommentBlock_split pre block hpre hne hblock
  refine ⟨hcomment, ?_⟩
  show (match getFirstComment (some s) with
    | Option.none => Option.none
    | some comment => some (propertyDict comment.data))
    = some (propertyDict (joinLines block))
  rw [hcomment]

/-- Witness for C10: a one-line script that is nothing but a comment block
running to the end of the file. -/
theorem C10_witness :
    getFirstComment (some "-- Name: Foo") = some ⟨joinLines ["-- Name: Foo".data]⟩
    ∧ sourceEmbeddedProperties (some "-- Name: Foo")
      = some (propertyDict (joinLines ["-- Name: Foo".data]))
    ∧ nameText (processScript "Orig" "-- Name: Foo") = some "Foo" :=
  ⟨(C10_comment_block_at_eof "-- Name: Foo" [] ["-- Name: Foo".data] rfl
      (by decide) (by decide) (by decide)).1,
   (C10_comment_block_at_eof "-- Name: Foo" [] ["-- Name: Foo".data] rfl
      (by decide) (by decide) (by decide)).2,
   by decide⟩

/-!
### Lemmas about script processing, used by C4 and C5
-/

theorem propGet_scriptElement_disabled (cn : String) (nm src : Option String)
    (d : Bool) :
    (scriptElement cn nm src d).propGet "Disabled"
      = some (Element.mk "bool" [("name", "Disabled")] (some (convert_bool d)) []) :=
  rfl

theorem disabledText_scriptElement (cn : String) (nm src : Option String) (d : Bool) :
    disabledText (scriptElement cn nm src d) = some (convert_bool d) := by
  unfold disabledText Element.propText
  rw [propGet_scriptElement_disabled]
  rfl

theorem disabledText_foldl_ne (dct : List (String × String)) (e : Element)
    (h : ∀ kv ∈ dct, kv.1 ≠ "Disabled") :
    disabledText (dct.foldl applyOverride e) = disabledText e := by
  unfold disabledText Element.propText
  rw [propGet_foldl_applyOverride_ne dct e "Disabled" h]

theorem disabledText_processScript (name content : String)
    (h : ∀ kv ∈ (sourceEmbeddedProperties (some content)).getD [], kv.1 ≠ "Disabled") :
    disabledText (processScript name content) = some "false" := by
  have hsrc : (scriptElement (get_script_type content) (some name) (some content)
      false).propText "Source" = some content := rfl
  have hbase : disabledText (scriptElement (get_script_type content) (some name)
      (some content) false) = some "false" :=
    disabledText_scriptElement _ _ _ false
  unfold processScript useEmbeddedProperties
  rw [hsrc]
  cases hemb : sourceEmbeddedProperties (some content) with
  | none => exact hbase
  | some dct =>
    rw [hemb] at h
    simp only [Option.getD_some] at h
    show disabledText (if dct = [] then _ else dct.foldl applyOverride _) = _
    by_cases hd : dct = []
    · rw [if_pos hd]
      exact hbase
    · rw [if_neg hd, disabledText_foldl_ne dct _ h]
      exact hbase

theorem processScript_disabled_isSome (name content : String) :
    ((processScript name content).propGet "Disabled").isSome := by
  have hbase : ((scriptElement (get_script_type content) (some name) (some content)
      false).propGet "Disabled").isSome := by
    rw [propGet_scriptElement_disabled]
    rfl
  unfold processScript useEmbeddedProperties
  cases hemb : sourceEmbeddedProperties ((scriptElement (get_script_type content)
      (some name) (some content) false).propText "Source") with
  | none => exact hbase
  | some dct =>
    show ((if dct = [] then _ else dct.foldl applyOverride _).propGet "Disabled").isSome
    by_cases hd : dct = []
    · rw [if_pos hd]
      exact hbase
    · rw [if_neg hd]
      exact propGet_foldl_applyOverride_isSome dct _ _ hbase

/-!
### Claim C4 — serialized Disabled text
-/

/-- C4 counterexample: the embedded override `-- Disabled: True` is copied
into the property verbatim, so the serialized `Disabled` text of this fully
processed ScriptUnit is `"True"` — neither of the lowercase tokens the claim
allows. -/
theorem C4_counterexample_disabled_override_verbatim :
    disabledText (processScript "Foo" "-- Disabled: True") = some "True"
    ∧ some "True" ≠ some "true" ∧ some "True" ≠ some "false" := by
  refine ⟨by decide, by decide, by decide⟩

/-- C4 amended: for every ScriptUnit built by the constructor (any boolean
`disabled` argument) the `Disabled` text is exactly `"true"` or `"false"`,
and the same holds after base processing and after the Nevermore variant —
provided the script's embedded properties contain no `Disabled` override;
such an override is copied verbatim and can have any casing. -/
theorem C4_disabled_lowercase_without_override (cn name content : String)
    (nm src : Option String) (d : Bool)
    (h : ∀ kv ∈ (sourceEmbeddedProperties (some content)).getD [], kv.1 ≠ "Disabled") :
    (disabledText (scriptElement cn nm src d) = some "true"
      ∨ disabledText (scriptElement cn nm src d) = some "false")
    ∧ disabledText (processScript name content) = some "false"
    ∧ (disabledText (nevermoreProcessScript name content) = some "true"
       ∨ disabledText (nevermoreProcessScript name content) = some "false") := by
  refine ⟨?_, disabledText_processScript name content h, ?_⟩
  · rw [disabledText_scriptElement]
    cases d
    · right; rfl
    · left; rfl
  · by_cases hcond : (!(name == "NevermoreEngineLoader")
        && !((processScript name content).attr "class" == some "ModuleScript")) = true
    · have hre : nevermoreProcessScript name content
          = (processScript name content).propSet "Disabled" "true" := by
        show (if (!(name == "NevermoreEngineLoader")
            && !((processScript name content).attr "class" == some "ModuleScript")) = true
          then (processScript name content).propSet "Disabled" "true"
          else processScript name content) = _
        rw [if_pos hcond]
      rw [hre]
      left
      exact propText_propSet_self _ _ _ (processScript_disabled_isSome name content)
    · have hre : nevermoreProcessScript name content = processScript name content := by
        show (if (!(name == "NevermoreEngineLoader")
            && !((processScript name content).attr "class" == some "ModuleScript")) = true
          then (processScript name content).propSet "Disabled" "true"
          else processScript name content) = _
        rw [if_neg hcond]
      rw [hre]
      right
      exact disabledText_processScript name content h

/-- Witness for C4 at a script with no embedded `Disabled` override. -/
theorem C4_witness :
    (disabledText (scriptElement "Script" Option.none Option.none true) = some "true"
      ∨ disabledText (scriptElement "Script" Option.none Option.none true) = some "false")
    ∧ disabledText (processScript "Foo" "print(1)") = some "false"
    ∧ (disabledText (nevermoreProcessScript "Foo" "print(1)") = some "true"
       ∨ disabledText (nevermoreProcessScript "Foo" "print(1)") = some "false") :=
  C4_disabled_lowercase_without_override "Script" "Foo" "print(1)"
    Option.none Option.none true (by decide)

/-!
### Claim C5 — the Nevermore variant's actual precedence
-/

/-- C5 counterexample: the claim implies every script not named exactly like
the loader ends up disabled (its cases 2 and 3 both disable), and that other
scripts are coerced to the module class tag.  Neither holds: a module script
named `Foo` stays enabled, and a plain script keeps its `Script` class tag. -/
theorem C5_counterexample_module_not_disabled :
    (¬ ∀ name content : String, name ≠ "NevermoreEngineLoader" →
        disabledText (nevermoreProcessScript name content) = some "true")
    ∧ classAttr (nevermoreProcessScript "Script" "") = some "Script" := by
  constructor
  · intro h
    have hx := h "Foo" "return x" (by decide)
    have he : disabledText (nevermoreProcessScript "Foo" "return x")
        = some "false" := by decide
    rw [he] at hx
    exact absurd hx (by decide)
  · decide

/-- C5 amended: the variant's real behavior — the exact loader name leaves
the script as base-processed (enabled by default, class unchanged); the
class tag is never coerced; a script that is neither the loader nor
classified `ModuleScript` gets its `Disabled` text set to `"true"`; a
`ModuleScript` is returned unchanged (not disabled).  There is no
case-insensitive substring rule. -/
theorem C5_nevermore_precedence (name content : String) :
    nevermoreProcessScript "NevermoreEngineLoader" content
      = processScript "NevermoreEngineLoader" content
    ∧ classAttr (nevermoreProcessScript name content)
      = classAttr (processScript name content)
    ∧ (name ≠ "NevermoreEngineLoader" →
        classAttr (processScript name content) ≠ some "ModuleScript" →
        disabledText (nevermoreProcessScript name content) = some "true")
    ∧ (classAttr (processScript name content) = some "ModuleScript" →
        nevermoreProcessScript name content = processScript name content) := by
  refine ⟨?_, ?_, ?_, ?_⟩
  · show (if (!("NevermoreEngineLoader" == "NevermoreEngineLoader")
        && !((processScript "NevermoreEngineLoader" content).attr "class"
            == some "ModuleScript")) = true
      then (processScript "NevermoreEngineLoader" content).propSet "Disabled" "true"
      else processScript "NevermoreEngineLoader" content) = _
    simp
  · by_cases hcond : (!(name == "NevermoreEngineLoader")
        && !((processScript name content).attr "class" == some "ModuleScript")) = true
    · have hre : nevermoreProcessScript name content
          = (processScript name content).propSet "Disabled" "true" := by
        show (if (!(name == "NevermoreEngineLoader")
            && !((processScript name content).attr "class" == some "ModuleScript")) = true
          then (processScript name content).propSet "Disabled" "true"
          else processScript name content) = _
        rw [if_pos hcond]
      rw [hre]
      unfold classAttr
      rw [attr_propSet]
    · have hre : nevermoreProcessScript name content = processScript name content := by
        show (if (!(name == "NevermoreEngineLoader")
            && !((processScript name content).attr "class" == some "ModuleScript")) = true
          then (processScript name content).propSet "Disabled" "true"
          else processScript name content) = _
        rw [if_neg hcond]
      rw [hre]
  · intro h1 h2
    have h1' : (name == "NevermoreEngineLoader") = false := by simp [h1]
    have h2' : ((processScript name content).attr "class" == some "ModuleScript")
        = false := by
      unfold classAttr at h2
      simp [h2]
    have hcond : (!(name == "NevermoreEngineLoader")
        && !((processScript name content).attr "class" == some "ModuleScript")) = true := by
      rw [h1', h2']
      rfl
    have hre : nevermoreProcessScript name content
        = (processScript name content).propSet "Disabled" "true" := by
      show (if (!(name == "NevermoreEngineLoader")
          && !((processScript name content).attr "class" == some "ModuleScript")) = true
        then (processScript name content).propSet "Disabled" "true"
        else processScript name content) = _
      rw [if_pos hcond]
    rw [hre]
    exact propText_propSet_self _ _ _ (processScript_disabled_isSome name content)
  · intro hmod
    have hmod' : ((processScript name content).attr "class" == some "ModuleScript")
        = true := by
      unfold classAttr at hmod
      simp [hmod]
    have hcond : (!(name == "NevermoreEngineLoader")
        && !((processScript name content).attr "class" == some "ModuleScript")) = false := by
      rw [hmod']
      simp
    show (if (!(name == "NevermoreEngineLoader")
        && !((processScript name content).attr "class" == some "ModuleScript")) = true
      then (processScript name content).propSet "Disabled" "true"
      else processScript name content) = _
    rw [if_neg (by simp [hcond])]

/-- Witness for C5: a plain script is disabled, a module script is returned
unchanged. -/
theorem C5_witness :
    disabledText (nevermoreProcessScript "Script" "") = some "true"
    ∧ nevermoreProcessScript "Foo" "return x" = processScript "Foo" "return x" :=
  ⟨(C5_nevermore_precedence "Script" "").2.2.1 (by decide) (by decide),
   (C5_nevermore_precedence "Foo" "return x").2.2.2 (by decide)⟩

/-!
### Lemmas for the module-heuristic regex, used by C6
-/

theorem isPrefixOf_iff_exists (a : List Char) :
    ∀ l : List Char, a.isPrefixOf l = true ↔ ∃ t, l = a ++ t := by
  induction a with
  | nil =>
    intro l
    constructor
    · intro _
      exact ⟨l, rfl⟩
    · intro _
      exact List.isPrefixOf_nil_left
  | cons x a ih =>
    intro l
    cases l with
    | nil =>
      constructor
      · intro h
        cases h
      · rintro ⟨t, ht⟩
        cases ht
    | cons y l' =>
      show (x == y && a.isPrefixOf l') = true ↔ _
      rw [Bool.and_eq_true, beq_iff_eq, ih l']
      constructor
      · rintro ⟨hxy, t, ht⟩
        subst hxy
        exact ⟨t, by rw [ht]; rfl⟩
      · rintro ⟨t, ht⟩
        injection ht with h1 h2
        exact ⟨h1.symm, t, h2⟩

theorem dropWhile_append_all {α : Type} {p : α → Bool} :
    ∀ (a b : List α), (∀ c ∈ a, p c = true) →
      (a ++ b).dropWhile p = b.dropWhile p := by
  intro a
  induction a with
  | nil => intro b _; rfl
  | cons c a ih =>
    intro b h
    rw [List.cons_append, List.dropWhile_cons_of_pos (h c (by simp))]
    exact ih b (fun x hx => h x (by simp [hx]))

theorem dropWhile_eq_nil_all {α : Type} {p : α → Bool} :
    ∀ a : List α, (∀ c ∈ a, p c = true) → a.dropWhile p = [] := by
  intro a
  induction a with
  | nil => intro _; rfl
  | cons c a ih =>
    intro h
    rw [List.dropWhile_cons_of_pos (h c (by simp))]
    exact ih (fun x hx => h x (by simp [hx]))

theorem all_dropWhile_of_all {α : Type} (p q : α → Bool) (z : List α)
    (h : ∀ c ∈ z, p c = true) : (z.dropWhile q).all p = true := by
  rw [List.all_eq_true]
  intro x hx
  exact h x ((List.dropWhile_sublist q).subset hx)

theorem dropWhile_nonNewline_all_space :
    ∀ (d z : List Char), (∀ c ∈ d, ¬(c = '\n')) → (∀ c ∈ z, isPySpace c = true) →
      ((d ++ z).dropWhile (fun c => !(c == '\n'))).all isPySpace = true := by
  intro d
  induction d with
  | nil =>
    intro z _ hz
    rw [List.nil_append]
    exact all_dropWhile_of_all _ _ z hz
  | cons a d ih =>
    intro z hd hz
    rw [List.cons_append, List.dropWhile_cons_of_pos (by simp [hd a (by simp)])]
    exact ih z (fun x hx => hd x (by simp [hx])) hz

theorem dropWhile_both_all_space :
    ∀ (d z : List Char), (∀ c ∈ d, ¬(c = '\n')) → (∀ c ∈ z, isPySpace c = true) →
      (((d ++ z).dropWhile isPySpace).dropWhile
        (fun c => !(c == '\n'))).all isPySpace = true := by
  intro d
  induction d with
  | nil =>
    intro z _ hz
    rw [List.nil_append, dropWhile_eq_nil_all z hz]
    rfl
  | cons a d ih =>
    intro z hd hz
    by_cases hsp : isPySpace a = true
    · rw [List.cons_append, List.dropWhile_cons_of_pos hsp]
      exact ih z (fun x hx => hd x (by simp [hx])) hz
    · rw [List.cons_append, List.dropWhile_cons_of_neg hsp,
        List.dropWhile_cons_of_pos (by simp [hd a (by simp)])]
      exact dropWhile_nonNewline_all_space d z (fun x hx => hd x (by simp [hx])) hz

theorem matchTail_iff (u : List Char) : matchTail u = true ↔ matchTailSplit u := by
  constructor
  · intro h
    cases u with
    | nil => cases h
    | cons c u0 =>
      replace h : (isPySpace c &&
          (((c :: u0).dropWhile isPySpace).dropWhile
            (fun d => !(d == '\n'))).all isPySpace) = true := h
      rw [Bool.and_eq_true] at h
      obtain ⟨hc, hall⟩ := h
      refine ⟨(c :: u0).takeWhile isPySpace,
        ((c :: u0).dropWhile isPySpace).takeWhile (fun d => !(d == '\n')),
        ((c :: u0).dropWhile isPySpace).dropWhile (fun d => !(d == '\n')),
        [], ?_, ?_, ?_, ?_, ?_, Or.inl rfl⟩
      · rw [List.append_nil, List.append_assoc, List.takeWhile_append_dropWhile,
          List.takeWhile_append_dropWhile]
      · rw [List.takeWhile_cons_of_pos hc]
        simp
      · intro x hx
        exact List.mem_takeWhile_imp hx
      · intro x hx
        have := List.mem_takeWhile_imp hx
        simpa using this
      · intro x hx
        rw [List.all_eq_true] at hall
        exact hall x hx
  · rintro ⟨w, d, w2, rest, he, hw, hws, hd, hw2, hrest⟩
    subst he
    cases w with
    | nil => exact absurd rfl hw
    | cons c0 w' =>
      have hc0 : isPySpace c0 = true := hws c0 (by simp)
      show (isPySpace c0 &&
          ((((c0 :: w') ++ d ++ w2 ++ rest).dropWhile isPySpace).dropWhile
            (fun x => !(x == '\n'))).all isPySpace) = true
      rw [Bool.and_eq_true]
      refine ⟨hc0, ?_⟩
      rw [List.append_assoc, List.append_assoc, dropWhile_append_all _ _ hws]
      apply dropWhile_both_all_space
      · exact hd
      · intro x hx
        rcases List.mem_append.mp hx with h1 | h2
        · exact hw2 x h1
        · cases hrest with
          | inl hr =>
            rw [hr] at h2
            cases h2
          | inr hr =>
            rw [hr] at h2
            simp at h2
            rw [h2]
            rfl

theorem searchReturn_iff : ∀ cs : List Char,
    searchReturn cs = true ↔
      ∃ pre u, cs = pre ++ "return".data ++ u ∧ matchTailSplit u := by
  intro cs
  induction cs with
  | nil =>
    constructor
    · intro h
      cases h
    · rintro ⟨pre, u, he, _⟩
      have hlen := congrArg List.length he
      simp only [List.length_nil, List.length_append] at hlen
      rw [show ("return".data).length = 6 from rfl] at hlen
      omega
  | cons c rest ih =>
    constructor
    · intro h
      replace h : (("return".data.isPrefixOf (c :: rest)
          && matchTail ((c :: rest).drop 6)) || searchReturn rest) = true := h
      rw [Bool.or_eq_true] at h
      cases h with
      | inl hm =>
        rw [Bool.and_eq_true] at hm
        obtain ⟨hpre, htail⟩ := hm
        obtain ⟨t, ht⟩ := (isPrefixOf_iff_exists _ _).mp hpre
        have hdrop : (c :: rest).drop 6 = t := by
          rw [ht, show (6 : Nat) = ("return".data).length from rfl]
          exact List.drop_left _ _
        rw [hdrop] at htail
        exact ⟨[], t, by rw [ht]; rfl, (matchTail_iff t).mp htail⟩
      | inr hr =>
        obtain ⟨pre, u, he, hm⟩ := ih.mp hr
        exact ⟨c :: pre, u, by rw [List.cons_append, List.cons_append, he], hm⟩
    · rintro ⟨pre, u, he, hm⟩
      show (("return".data.isPrefixOf (c :: rest)
          && matchTail ((c :: rest).drop 6)) || searchReturn rest) = true
      rw [Bool.or_eq_true]
      cases pre with
      | nil =>
        left
        rw [Bool.and_eq_true]
        rw [List.nil_append] at he
        have hdrop : (c :: rest).drop 6 = u := by
          rw [he, show (6 : Nat) = ("return".data).length from rfl]
          exact List.drop_left _ _
        refine ⟨(isPrefixOf_iff_exists _ _).mpr ⟨u, he⟩, ?_⟩
        rw [hdrop]
        exact (matchTail_iff u).mpr hm
      | cons p pre' =>
        right
        rw [List.cons_append, List.cons_append] at he
        injection he with h1 h2
        exact ih.mpr ⟨pre', u, h2, hm⟩

theorem is_module_iff (s : String) : is_module s = true ↔ regexReturnMatch s :=
  searchReturn_iff s.data

theorem trimRight_decomp (s : String) :
    ∃ w : List Char, s.data = (s.data.reverse.dropWhile isPySpace).reverse ++ w
      ∧ ∀ c ∈ w, isPySpace c = true := by
  refine ⟨(s.data.reverse.takeWhile isPySpace).reverse, ?_, ?_⟩
  · calc s.data = s.data.reverse.reverse := (List.reverse_reverse _).symm
    _ = (s.data.reverse.takeWhile isPySpace
        ++ s.data.reverse.dropWhile isPySpace).reverse := by
          rw [List.takeWhile_append_dropWhile]
    _ = (s.data.reverse.dropWhile isPySpace).reverse
        ++ (s.data.reverse.takeWhile isPySpace).reverse := List.reverse_append _ _
  · intro c hc
    rw [List.mem_reverse] at hc
    exact List.mem_takeWhile_imp hc

theorem trailingReturn_isModule (s : String)
    (h : trailingReturnStatement s = true) : is_module s = true := by
  apply (is_module_iff s).mpr
  simp only [trailingReturnStatement] at h
  rw [List.any_eq_true] at h
  obtain ⟨i, hi, hcond⟩ := h
  simp only [Bool.and_eq_true] at hcond
  obtain ⟨⟨hbound, hpref⟩, htail⟩ := hcond
  obtain ⟨u, hu⟩ := (isPrefixOf_iff_exists _ _).mp hpref
  obtain ⟨wtail, hw, hwall⟩ := trimRight_decomp s
  have hdrop : ((s.data.reverse.dropWhile isPySpace).reverse).drop (i + 6) = u := by
    rw [← List.drop_drop, hu, show (6 : Nat) = ("return".data).length from rfl,
      List.drop_left]
  rw [hdrop] at htail
  cases u with
  | nil => exact Bool.noConfusion htail
  | cons c u0 =>
    replace htail : (isPySpace c &&
        ((c :: u0).dropWhile isPySpace).all (fun d => !(d == '\n'))) = true := htail
    rw [Bool.and_eq_true] at htail
    obtain ⟨hc, hall⟩ := htail
    refine ⟨((s.data.reverse.dropWhile isPySpace).reverse).take i,
      (c :: u0) ++ wtail, ?_, ?_⟩
    · conv_lhs =>
        rw [hw, ← List.take_append_drop i ((s.data.reverse.dropWhile isPySpace).reverse)]
      rw [hu]
      simp [List.append_assoc]
    · refine ⟨(c :: u0).takeWhile isPySpace, (c :: u0).dropWhile isPySpace,
        wtail, [], ?_, ?_, ?_, ?_, ?_, Or.inl rfl⟩
      · rw [List.append_nil, List.takeWhile_append_dropWhile]
      · rw [List.takeWhile_cons_of_pos hc]
        simp
      · intro x hx
        exact List.mem_takeWhile_imp hx
      · intro x hx
        rw [List.all_eq_true] at hall
        have := hall x hx
        simpa using this
      · exact hwall

/-!
### Claim C6 — the module heuristic
-/

/-- C6 counterexample: `myreturn 5` is classified `ModuleScript` although its
trailing non-whitespace content is not a `return <anything>` statement (the
`return` inside `myreturn` is the tail of a longer identifier; the regex has
no word boundary).  The claim's "for every other source text it is Script"
direction is therefore false. -/
theorem C6_counterexample_substring_return :
    get_script_type "myreturn 5" = "ModuleScript"
    ∧ trailingReturnStatement "myreturn 5" = false := by
  refine ⟨by decide, by decide⟩

/-- C6 amended: a trailing `return <anything>` statement is sufficient for
classification as `ModuleScript`, but the code's condition is exactly the
regex search `return\s+.*(\s+)?$` — the literal substring `return` (not
necessarily a whole word) followed by whitespace, then newline-free text,
then optional whitespace reaching the end; everything not matching that is
classified `Script`. -/
theorem C6_module_heuristic (s : String) :
    (trailingReturnStatement s = true → get_script_type s = "ModuleScript")
    ∧ (is_module s = true ↔ regexReturnMatch s)
    ∧ (is_module s = false → get_script_type s = "Script") := by
  refine ⟨?_, is_module_iff s, ?_⟩
  · intro h
    unfold get_script_type
    rw [if_pos (trailingReturn_isModule s h)]
  · intro h
    unfold get_script_type
    rw [if_neg (by simp [h])]

/-- Witness for C6 at concrete sources on both sides of the heuristic. -/
theorem C6_witness :
    trailingReturnStatement "return x" = true
    ∧ get_script_type "return x" = "ModuleScript"
    ∧ is_module "x = 1" = false
    ∧ get_script_type "x = 1" = "Script" :=
  ⟨by decide, (C6_module_heuristic "return x").1 (by decide), by decide,
   (C6_module_heuristic "x = 1").2.2 (by decide)⟩

end Elixir
